import Mathlib

set_option maxRecDepth 2000

/-!
Verification development for the sample-data generator in
scripts/generate_sample_data.py.

The script builds three in-memory record collections (providers, events,
playlists) from fixed vocabularies using the globally seeded pseudo-random
generator, cross-links them by id, and serializes each record to a JSON file.

Embedding choices, each mirroring the source:
* the global random generator is modelled by an explicit linear-congruential
  state threaded through every generation function, seeded with 42 as in
  the source (random.seed(42)); the claims are quantified over all states,
  so no property depends on the particular constants;
* random.choice on a list is modelled by choiceD (total, a default value is
  supplied for the statically impossible empty case at call sites on literal
  vocabularies) and by choice (Option-valued) where the list is dynamic;
* random.sample is modelled by sample, which fails (none) exactly when the
  requested size exceeds the population size, as ValueError does;
* random.shuffle is modelled as a random permutation via full sampling;
* the unbounded retry-until-unique name loop is modelled with explicit fuel;
  exhausted fuel yields none, mirroring non-termination of the source loop;
* datetime.utcnow() is modelled by a nowDay parameter (current UTC day
  number); a timestamp is the pair of its absolute day number and hour,
  abstracting the ISO calendar rendering.
-/

/-- State of the modelled pseudo-random generator. -/
structure RGen where
  seed : Nat
deriving DecidableEq

/-- One step of the linear congruential generator. -/
def randNext (s : Nat) : Nat := (1103515245 * s + 12345) % 2147483648

/-- Draw a number below n (used by choice, sample, randint). -/
def randBelow (n : Nat) (r : RGen) : Nat × RGen :=
  let s := randNext r.seed
  (s % n, ⟨s⟩)

/-- Model of random.randint(a, b): inclusive on both ends. -/
def randint (a b : Nat) (r : RGen) : Nat × RGen :=
  let p := randBelow (b + 1 - a) r
  (a + p.1, p.2)

/-- Model of random.choice on a list, with an explicit default for the
empty case; every call site passes a nonempty literal vocabulary, where
the default is unreachable. -/
def choiceD (l : List α) (d : α) (r : RGen) : α × RGen :=
  let p := randBelow l.length r
  (l.getD p.1 d, p.2)

/-- Model of random.choice on a dynamic list; none on the empty list,
as the IndexError in the source. -/
def choice : List α → RGen → Option (α × RGen)
  | [], _ => none
  | x :: xs, r => some (choiceD (x :: xs) x r)

/-- Helper for sample: draw k elements at distinct positions, removing
each chosen element. -/
def sampleAux : Nat → List α → RGen → Option (List α × RGen)
  | 0, _, r => some ([], r)
  | _ + 1, [], _ => none
  | k + 1, x :: xs, r =>
    let p := randBelow (x :: xs).length r
    match sampleAux k ((x :: xs).eraseIdx p.1) p.2 with
    | none => none
    | some q => some ((x :: xs).getD p.1 x :: q.1, q.2)

/-- Model of random.sample(l, k): k elements at pairwise distinct
positions; none when k exceeds the population size (ValueError). -/
def sample (l : List α) (k : Nat) (r : RGen) : Option (List α × RGen) :=
  sampleAux k l r

/-- Model of random.shuffle: a random permutation of the list, obtained
by sampling all positions. The none branch is unreachable. -/
def shuffle (l : List α) (r : RGen) : List α × RGen :=
  match sampleAux l.length l r with
  | some q => q
  | none => (l, r)

/-! Fixed vocabularies from the top of the script. -/

def SPORTS : List String :=
  ["premier-league", "la-liga", "nba", "f1", "nfl", "mls",
   "champions-league", "rugby-championship", "cricket-world-series",
   "mma", "boxing", "tennis-tour", "golf-tour", "cycling-world-tour",
   "esports-league"]

def COUNTRIES : List String :=
  ["us", "uk", "de", "fr", "es", "it", "ca", "mx", "br", "au", "nz",
   "jp", "kr", "sg", "za"]

def LANGUAGES : List String :=
  ["en", "es", "fr", "de", "it", "pt", "ja", "ko", "zh", "ar", "hi"]

def CDNS : List String :=
  ["akamai", "cloudfront", "fastly", "cloudflare", "limelight"]

def PROTOCOLS : List (String × String) :=
  [("hls", "m3u8"), ("dash", "mpd"), ("webrtc", "sdp")]

def PREFIXES : List String :=
  ["Global", "Velocity", "Summit", "Edge", "Continental", "Metro",
   "AllStar", "Ultra", "Vantage", "Prime", "Aurora", "Pulse", "Optimum",
   "Voyager", "Auric"]

def REGIONAL_DESCRIPTORS : List String :=
  ["Atlantic", "Pacific", "Central", "Nordic", "Iberian", "Balkan",
   "Alpine", "Andean", "Transatlantic", "Coastal", "Steppe", "Cascadia",
   "Sahara", "Baltic", "Panamerican"]

def SUFFIXES : List String :=
  ["Sports Network", "Streaming Cooperative", "Broadcast Exchange",
   "Media Collective", "Play Signals", "Multi-View", "Interactive",
   "Arena", "Digital Hub", "League Pass"]

/-- Per-sport descriptor phrases (EVENT_NAME_SETS). -/
def eventNameSets : String → List String
  | "premier-league" => ["Matchweek Clash", "Derby Showdown", "Top Four Battle"]
  | "la-liga" => ["Iberian Classic", "Catalan Fixture", "Madrid Derby"]
  | "nba" => ["Conference Spotlight", "Marquee Matchup", "Playoff Preview"]
  | "f1" => ["Grand Prix Qualifying", "Night Race Sprint", "Circuit Practice"]
  | "nfl" => ["Primetime Fixture", "Division Decider", "Wildcard Chase"]
  | "mls" => ["Derby Day", "Conference Battle", "Expansion Showcase"]
  | "champions-league" => ["Group Stage Spotlight", "Knockout Thriller", "Final Rehearsal"]
  | "rugby-championship" => ["Southern Hemisphere Test", "Tri-Nations Classic", "Rivalry Cup"]
  | "cricket-world-series" => ["Day/Night ODI", "Test Match Session", "T20 Showcase"]
  | "mma" => ["Title Eliminator", "Fight Night", "Contender Series"]
  | "boxing" => ["Main Event Bout", "Undercard Showcase", "Title Defense"]
  | "tennis-tour" => ["Masters Quarterfinal", "Grand Slam Warmup", "Doubles Spotlight"]
  | "golf-tour" => ["Links Challenge", "Championship Round", "Ryder Preview"]
  | "cycling-world-tour" => ["Mountain Stage", "Time Trial", "Sprint Finish"]
  | "esports-league" => ["LAN Finale", "Regional Semifinal", "Showmatch"]
  | _ => []

def VENUES : List String :=
  ["Metropolitan Arena", "Coastal Dome", "Summit Stadium", "Heritage Park",
   "Aurora Center", "Prime Pavilion", "Velocity Arena", "Union Ground",
   "Liberty Field", "Grand Prix Circuit"]

def TIMEZONES : List String :=
  ["UTC", "America/New_York", "Europe/London", "Asia/Singapore",
   "Australia/Sydney"]

def NOTES_POOL : List String :=
  ["4K SDR primary feed", "Dolby Atmos mix available",
   "Alternate commentary lane", "Player-specific iso cams",
   "Enhanced data overlays enabled", "VR companion experience"]

def CURATORS : List String :=
  ["editorial-team", "automation-playbook", "regional-scouts",
   "audience-growth"]

/-! Decimal formatting helpers for the f-string field widths. -/

/-- The character of a single decimal digit. -/
def digitChar (d : Nat) : Char := Char.ofNat (48 + d)

/-- Decimal rendering with the 03d field width of the format strings. -/
def pad3 (n : Nat) : String :=
  if n < 1000 then
    String.mk [digitChar (n / 100), digitChar (n / 10 % 10), digitChar (n % 10)]
  else Nat.repr n

/-- Decimal rendering with the 02d field width of the format strings. -/
def pad2 (n : Nat) : String :=
  if n < 100 then String.mk [digitChar (n / 10), digitChar (n % 10)]
  else Nat.repr n

/-- Model of the str.title() transformation used on sport names. -/
def pyTitleAux : List Char → Bool → List Char
  | [], _ => []
  | c :: cs, prevAlpha =>
    if c.isAlpha then
      (if prevAlpha then c.toLower else c.toUpper) :: pyTitleAux cs true
    else c :: pyTitleAux cs false

/-- Model of str.title(). -/
def pyTitle (s : String) : String := String.mk (pyTitleAux s.data false)

/-- Lexicographic comparison of code point sequences, the string order
of the sorted builtin. -/
def charListLE : List Char → List Char → Bool
  | [], _ => true
  | _ :: _, [] => false
  | c :: cs, d :: ds =>
    if c.toNat < d.toNat then true
    else if d.toNat < c.toNat then false
    else charListLE cs ds

/-- String comparison by code points. -/
def strLE (a b : String) : Bool := charListLE a.data b.data

/-- Insert a string into a sorted list, keeping it sorted. -/
def insertSorted (a : String) : List String → List String
  | [] => [a]
  | b :: bs => if strLE a b then a :: b :: bs else b :: insertSorted a bs

/-- Model of the sorted builtin on a string list (strings compare
lexicographically in both languages), as an insertion sort. -/
def sortStrings : List String → List String
  | [] => []
  | x :: xs => insertSorted x (sortStrings xs)

/-- The replace of a single dash character by a space, as applied to
sport names before title casing; a one-character replace is a map over
the characters. -/
def dashToSpace (s : String) : String :=
  String.mk (s.data.map (fun c => if c = '-' then ' ' else c))

/-! Data records, with the field names of the generation dictionaries. -/

/-- Abstract timestamp value: the absolute UTC day number and the hour,
abstracting the ISO rendering of format_timestamp. -/
structure Timestamp where
  day : Nat
  hour : Nat
deriving DecidableEq

/-- Model of format_timestamp: the current UTC day plus the future day
offset, at the given hour. -/
def format_timestamp (nowDay : Nat) (daysInFuture : Nat) (hour : Nat) : Timestamp :=
  ⟨nowDay + daysInFuture, hour⟩

/-- One entry of a provider endpoints list, fields flattened from the
nested dictionaries of the source. -/
structure Endpoint where
  protocol : String
  url : String
  authType : String
  authTtlSeconds : Nat
  ingestRegion : String
  ingestLatencyClass : String
  healthcheck : String
  observability : String
  streamKey : String
deriving DecidableEq

/-- The support metadata block of a provider. -/
structure SupportInfo where
  statusPage : String
  contact : String
  onCall : String
deriving DecidableEq

/-- A provider record, with the internal generation field names. -/
structure Provider where
  id : String
  name : String
  focus : List String
  countries : List String
  languages : List String
  cdn : String
  endpoints : List Endpoint
  support : SupportInfo
deriving DecidableEq

/-- An event record. startTs and endTs stand for the start and end
fields of the source dictionary. -/
structure Event where
  id : String
  sport : String
  title : String
  startTs : Timestamp
  endTs : Timestamp
  venue : String
  timezone : String
  providers : List String
  notes : List String
deriving DecidableEq

/-- A playlist record. -/
structure Playlist where
  id : String
  sport : String
  title : String
  curator : String
  weeks : List String
  events : List String
deriving DecidableEq

/-- The end time computation of generate_events: total hours past
midnight of the start day, split by the 24-hour clock; first component
is the end day offset, second the end hour. -/
def eventTimeCalc (startHour dayOffset duration : Nat) : Nat × Nat :=
  let endHourTotal := startHour + duration
  (dayOffset + endHourTotal / 24, endHourTotal % 24)

/-! Provider generation (generate_providers). -/

/-- The id format string of a provider record. -/
def providerId (idx : Nat) : String := "provider-" ++ pad3 idx

/-- Assemble one candidate display name from the three vocabularies. -/
def mkName (r : RGen) : String × RGen :=
  let p := choiceD PREFIXES "Global" r
  let q := choiceD REGIONAL_DESCRIPTORS "Atlantic" p.2
  let t := choiceD SUFFIXES "Sports Network" q.2
  (p.1 ++ " " ++ q.1 ++ " " ++ t.1, t.2)

/-- The while-not-unique retry loop over name candidates, with explicit
fuel standing for the unbounded iteration of the source. -/
def freshNameLoop (seen : List String) : Nat → String → RGen → Option (String × RGen)
  | 0, cand, r => if cand ∈ seen then none else some (cand, r)
  | fuel + 1, cand, r =>
    if cand ∈ seen then
      let p := mkName r
      freshNameLoop seen fuel p.1 p.2
    else some (cand, r)

/-- One entry of the endpoints list for a sampled protocol pairing. -/
def mkEndpoint (pid protocol ext : String) (countries0 : List String)
    (r : RGen) : Option (Endpoint × RGen) := do
  let a := choiceD ["signed-url", "token", "mutual-tls"] "signed-url" r
  let t := choiceD [900, 1800, 3600] 900 a.2
  let (reg, r2) ← choice countries0 t.2
  let lat := choiceD ["ultra-low", "low", "standard"] "ultra-low" r2
  let ob := choiceD ["newrelic", "datadog", "grafana"] "newrelic" lat.2
  pure ({ protocol := protocol
        , url := "https://streams.example.com/" ++ pid ++ "/" ++ protocol
            ++ "/master." ++ ext
        , authType := a.1
        , authTtlSeconds := t.1
        , ingestRegion := reg
        , ingestLatencyClass := lat.1
        , healthcheck := "https://status.example.com/" ++ pid ++ "/" ++ protocol
        , observability := ob.1
        , streamKey := pid ++ "-" ++ protocol }, ob.2)

/-- The endpoints loop over the sampled protocol pairings. -/
def mkEndpoints (pid : String) (countries0 : List String) :
    List (String × String) → RGen → Option (List Endpoint × RGen)
  | [], r => some ([], r)
  | (pr, ex) :: rest, r => do
    let (e, r1) ← mkEndpoint pid pr ex countries0 r
    let (es, r2) ← mkEndpoints pid countries0 rest r1
    pure (e :: es, r2)

/-- One iteration of the provider loop body. -/
def mkProvider (fuel idx : Nat) (seen : List String) (r : RGen) :
    Option (Provider × RGen) := do
  let c0 := mkName r
  let (nm, r1) ← freshNameLoop seen fuel c0.1 c0.2
  let pid := providerId idx
  let fc := randint 2 5 r1
  let (focus, r2) ← sample SPORTS fc.1 fc.2
  let cc := randint 2 5 r2
  let (countries0, r3) ← sample COUNTRIES cc.1 cc.2
  let lc := randint 1 3 r3
  let (langs, r4) ← sample LANGUAGES lc.1 lc.2
  let cd := choiceD CDNS "akamai" r4
  let ec := randint 1 PROTOCOLS.length cd.2
  let (protos, r6) ← sample PROTOCOLS ec.1 ec.2
  let (eps, r7) ← mkEndpoints pid countries0 protos r6
  let oc := choiceD ["follow-the-sun", "regional-escalation", "hybrid"]
    "follow-the-sun" r7
  pure ({ id := pid
        , name := nm
        , focus := sortStrings focus
        , countries := sortStrings countries0
        , languages := sortStrings langs
        , cdn := cd.1
        , endpoints := eps
        , support :=
          { statusPage := "https://status.example.com/" ++ pid
          , contact := "support@" ++ pid ++ ".example.com"
          , onCall := oc.1 } }, oc.2)

/-- The provider loop, threading the seen-name set. -/
def genProvidersAux (fuel : Nat) : Nat → Nat → List String → RGen →
    Option (List Provider × RGen)
  | _, 0, _, r => some ([], r)
  | idx, k + 1, seen, r => do
    let (p, r1) ← mkProvider fuel idx seen r
    let (rest, r2) ← genProvidersAux fuel (idx + 1) k (p.name :: seen) r1
    pure (p :: rest, r2)

/-- Model of generate_providers(count). -/
def generate_providers (count : Nat) (r : RGen) (fuel : Nat) :
    Option (List Provider × RGen) :=
  genProvidersAux fuel 1 count [] r

/-! Event generation (generate_events). -/

/-- The notes list comprehension: n draws from the note pool. -/
def genNotes : Nat → RGen → List String × RGen
  | 0, r => ([], r)
  | n + 1, r =>
    let c := choiceD NOTES_POOL "4K SDR primary feed" r
    let rest := genNotes n c.2
    (c.1 :: rest.1, rest.2)

/-- One iteration of the event loop body. -/
def genOneEvent (providers : List Provider) (nowDay idx : Nat) (r : RGen) :
    Option (Event × RGen) := do
  let sp := choiceD SPORTS "premier-league" r
  let de := choiceD (eventNameSets sp.1) "" sp.2
  let eid := "event-" ++ pad3 idx ++ "-" ++ sp.1
  let sh := choiceD [12, 15, 18, 20, 22] 12 de.2
  let dayo := randint 1 90 sh.2
  let du := choiceD [2, 3, 4] 2 dayo.2
  let tc := eventTimeCalc sh.1 dayo.1 du.1
  let startT := format_timestamp nowDay dayo.1 sh.1
  let endT := format_timestamp nowDay tc.1 tc.2
  let ve := choiceD VENUES "Metropolitan Arena" du.2
  let tz := choiceD TIMEZONES "UTC" ve.2
  let kk := randint 2 4 tz.2
  let (psample, r1) ← sample providers kk.1 kk.2
  let nc := randint 2 4 r1
  let ns := genNotes nc.1 nc.2
  pure ({ id := eid
        , sport := sp.1
        , title := pyTitle (dashToSpace sp.1) ++ " " ++ de.1
        , startTs := startT
        , endTs := endT
        , venue := ve.1
        , timezone := tz.1
        , providers := psample.map Provider.id
        , notes := ns.1 }, ns.2)

/-- The event loop. -/
def genEventsAux (providers : List Provider) (nowDay : Nat) :
    Nat → Nat → RGen → Option (List Event × RGen)
  | _, 0, r => some ([], r)
  | idx, k + 1, r => do
    let (e, r1) ← genOneEvent providers nowDay idx r
    let (rest, r2) ← genEventsAux providers nowDay (idx + 1) k r1
    pure (e :: rest, r2)

/-- Model of generate_events(providers, count). -/
def generate_events (providers : List Provider) (nowDay count : Nat)
    (r : RGen) : Option (List Event × RGen) :=
  genEventsAux providers nowDay 1 count r

/-! Playlist generation (generate_playlists). -/

/-- The setdefault-append step of the grouping dictionary: the event is
appended to the entry of its sport, a new entry appearing at the end the
first time a sport is seen (insertion order of the dict). -/
def addToGroup : List (String × List Event) → Event → List (String × List Event)
  | [], e => [(e.sport, [e])]
  | (s, es) :: gs, e =>
    if s = e.sport then (s, es ++ [e]) :: gs
    else (s, es) :: addToGroup gs e

/-- The events_by_sport grouping dictionary as an insertion-ordered
association list. -/
def groupBySport (events : List Event) : List (String × List Event) :=
  events.foldl addToGroup []

/-- Structural helper for the chunking slice loop; the first argument
is fuel, instantiated with the list length, which bounds the number of
chunks. -/
def chunks5F : Nat → List α → List (List α)
  | _, [] => []
  | 0, l => [l]
  | fuel + 1, x :: xs => (x :: xs.take 4) :: chunks5F fuel (xs.drop 4)

/-- The chunking slice loop: contiguous pieces of five. -/
def chunks5 (l : List α) : List (List α) := chunks5F l.length l

/-- The weeks list comprehension: n random ISO week labels. -/
def genWeeks : Nat → RGen → List String × RGen
  | 0, r => ([], r)
  | n + 1, r =>
    let w := randint 1 52 r
    let rest := genWeeks n w.2
    (("2025-W" ++ pad2 w.1) :: rest.1, rest.2)

/-- One playlist record from one chunk; idx is the pre-increment value
of playlist_idx, used in the id, while the title displays the
post-increment value idx + 1. -/
def mkOnePlaylist (s : String) (chunk : List Event) (idx : Nat) (r : RGen) :
    Playlist × RGen :=
  let cu := choiceD CURATORS "editorial-team" r
  let wc := randint 2 4 cu.2
  let ws := genWeeks wc.1 wc.2
  ({ id := "playlist-" ++ pad3 idx ++ "-" ++ s
   , sport := s
   , title := pyTitle (dashToSpace s) ++ " Weekly Mix #"
       ++ pad2 (idx + 1)
   , curator := cu.1
   , weeks := sortStrings ws.1.dedup
   , events := chunk.map Event.id }, ws.2)

/-- The per-chunk playlist loop of one sport group. -/
def mkPlaylistsForChunks (s : String) :
    List (List Event) → Nat → RGen → List Playlist × (Nat × RGen)
  | [], idx, r => ([], idx, r)
  | c :: cs, idx, r =>
    let pr := mkOnePlaylist s c idx r
    let rest := mkPlaylistsForChunks s cs (idx + 1) pr.2
    (pr.1 :: rest.1, rest.2)

/-- The loop over the sport groups, threading playlist_idx and the
random state. -/
def genPlaylistsAux : List (String × List Event) → Nat → RGen →
    List Playlist × (Nat × RGen)
  | [], idx, r => ([], idx, r)
  | (s, es) :: gs, idx, r =>
    let sh := shuffle es r
    let pc := mkPlaylistsForChunks s (chunks5 sh.1) idx sh.2
    let rest := genPlaylistsAux gs pc.2.1 pc.2.2
    (pc.1 ++ rest.1, rest.2)

/-- Model of generate_playlists(events). -/
def generate_playlists (events : List Event) (r : RGen) :
    List Playlist × RGen :=
  let q := genPlaylistsAux (groupBySport events) 1 r
  (q.1, q.2.2)

/-! Serialization (write_json, write_providers). -/

/-- A JSON value, as assembled by the writer functions. -/
inductive JValue where
  | str : String → JValue
  | num : Nat → JValue
  | arr : List JValue → JValue
  | obj : List (String × JValue) → JValue

/-- Indentation prefix at a nesting level (json.dumps with indent=2). -/
def jIndent (lvl : Nat) : String := String.mk (List.replicate (2 * lvl) ' ')

mutual

/-- Model of json.dumps(v, indent=2) at a nesting level. -/
def renderJV (lvl : Nat) : JValue → String
  | .str s => "\"" ++ s ++ "\""
  | .num n => Nat.repr n
  | .arr [] => "[]"
  | .arr (x :: xs) =>
    "[\n" ++ renderItems (lvl + 1) (x :: xs) ++ "\n" ++ jIndent lvl ++ "]"
  | .obj [] => "\x7b\x7d"
  | .obj (f :: fs) =>
    "\x7b\n" ++ renderFields (lvl + 1) (f :: fs) ++ "\n" ++ jIndent lvl ++ "\x7d"

/-- Comma-and-newline separated array items, each indented. -/
def renderItems (lvl : Nat) : List JValue → String
  | [] => ""
  | [x] => jIndent lvl ++ renderJV lvl x
  | x :: y :: xs =>
    jIndent lvl ++ renderJV lvl x ++ ",\n" ++ renderItems lvl (y :: xs)

/-- Comma-and-newline separated object fields, each indented. -/
def renderFields (lvl : Nat) : List (String × JValue) → String
  | [] => ""
  | [(k, v)] => jIndent lvl ++ "\"" ++ k ++ "\": " ++ renderJV lvl v
  | (k, v) :: f :: fs =>
    jIndent lvl ++ "\"" ++ k ++ "\": " ++ renderJV lvl v ++ ",\n"
      ++ renderFields lvl (f :: fs)

end

/-- The JSON object written for one endpoint dictionary. -/
def endpointJV (e : Endpoint) : JValue :=
  .obj [("protocol", .str e.protocol), ("url", .str e.url),
        ("auth", .obj [("type", .str e.authType),
                       ("ttlSeconds", .num e.authTtlSeconds)]),
        ("ingest", .obj [("region", .str e.ingestRegion),
                         ("latencyClass", .str e.ingestLatencyClass)]),
        ("monitoring", .obj [("healthcheck", .str e.healthcheck),
                             ("observability", .str e.observability)]),
        ("streamKey", .str e.streamKey)]

/-- The renamed public field list written for one provider: internal
generation names on the right, public schema keys on the left. -/
def providerPayload (p : Provider) : List (String × JValue) :=
  [("id", .str p.id),
   ("name", .str p.name),
   ("sportsFocus", .arr (p.focus.map .str)),
   ("coverageCountries", .arr (p.countries.map .str)),
   ("supportedLanguages", .arr (p.languages.map .str)),
   ("primaryCdn", .str p.cdn),
   ("activeEndpoints", .arr (p.endpoints.map endpointJV)),
   ("supportModel", .obj [("statusPage", .str p.support.statusPage),
                          ("contact", .str p.support.contact),
                          ("onCall", .str p.support.onCall)])]

/-- The providers output directory. -/
def PROVIDERS_DIR : String := "data/providers"

/-- Model of write_json: the written path and the file content,
dumps with indent 2 plus a trailing newline. -/
def write_json (path : String) (payload : JValue) : String × String :=
  (path, renderJV 0 payload ++ "\n")

/-- Model of write_providers: one file per provider, named by id. -/
def write_providers (providers : List Provider) : List (String × String) :=
  providers.map (fun p =>
    write_json (PROVIDERS_DIR ++ "/" ++ p.id ++ ".json")
      (.obj (providerPayload p)))

/-! The full pipeline (main), and the timestamp-free projection used to
state which parts of the output depend on the run date. -/

/-- Model of the generation pipeline of main() with the default counts:
providers, then events, then playlists. -/
def runGenerator (nowDay : Nat) (r : RGen) (fuel : Nat) :
    Option (List Provider × List Event × List Playlist) := do
  let (ps, r1) ← generate_providers 60 r fuel
  let (es, r2) ← generate_events ps nowDay 90 r1
  pure (ps, es, (generate_playlists es r2).1)

/-- The seeded initial state (random.seed(42)). -/
def seed42 : RGen := ⟨42⟩

/-- Every field of an event except the start and end timestamps. -/
def eventShape (e : Event) :
    String × String × String × String × String × List String × List String :=
  (e.id, e.sport, e.title, e.venue, e.timezone, e.providers, e.notes)

/-- The run output with the event timestamps erased: file counts and
the whole cross-reference structure survive this projection. -/
def runShape (o : Option (List Provider × List Event × List Playlist)) :
    Option (List Provider
      × List (String × String × String × String × String × List String × List String)
      × List Playlist) :=
  o.map (fun t => (t.1, t.2.1.map eventShape, t.2.2))

/-! Properties of the random primitives. -/

theorem randBelow_lt {n : Nat} (hn : 0 < n) (r : RGen) : (randBelow n r).1 < n :=
  Nat.mod_lt _ hn

theorem randint_bounds {a b : Nat} (h : a ≤ b) (r : RGen) :
    a ≤ (randint a b r).1 ∧ (randint a b r).1 ≤ b := by
  have hlt : (randBelow (b + 1 - a) r).1 < b + 1 - a := randBelow_lt (by omega) r
  simp only [randint]
  omega

theorem getD_mem {l : List α} {i : Nat} (d : α) (h : i < l.length) :
    l.getD i d ∈ l := by
  induction l generalizing i with
  | nil => simp at h
  | cons x xs ih =>
    cases i with
    | zero => simp
    | succ n =>
      simp only [List.getD_cons_succ]
      exact List.mem_cons_of_mem _ (ih (by simpa using h))

theorem choiceD_mem (x : α) (xs : List α) (d : α) (r : RGen) :
    (choiceD (x :: xs) d r).1 ∈ x :: xs := by
  simp only [choiceD]
  exact getD_mem d (randBelow_lt (Nat.succ_pos xs.length) r)

theorem choice_mem {l : List α} {a : α} {r r' : RGen}
    (h : choice l r = some (a, r')) : a ∈ l := by
  cases l with
  | nil => simp [choice] at h
  | cons x xs =>
    have heq : choiceD (x :: xs) x r = (a, r') := by
      simpa [choice] using h
    have hm := choiceD_mem x xs x r
    rw [heq] at hm
    exact hm

theorem getD_cons_perm {l : List α} {i : Nat} (d : α) (h : i < l.length) :
    List.Perm (l.getD i d :: l.eraseIdx i) l := by
  induction l generalizing i with
  | nil => simp at h
  | cons x xs ih =>
    cases i with
    | zero => simp
    | succ n =>
      simp only [List.getD_cons_succ, List.eraseIdx_cons_succ]
      have hn : n < xs.length := by simpa using h
      exact (List.Perm.swap x _ _).trans (List.Perm.cons x (ih hn))

theorem eraseIdx_map (f : α → β) (l : List α) (i : Nat) :
    (l.map f).eraseIdx i = (l.eraseIdx i).map f := by
  induction l generalizing i with
  | nil => simp
  | cons x xs ih =>
    cases i with
    | zero => simp
    | succ n => simp [ih]

theorem sampleAux_spec {k : Nat} {l res : List α} {r r' : RGen}
    (h : sampleAux k l r = some (res, r')) :
    res.length = k ∧ (res : Multiset α) ≤ (l : Multiset α) := by
  induction k generalizing l res r r' with
  | zero =>
    simp only [sampleAux, Option.some_inj] at h
    have hres : res = [] := (congrArg Prod.fst h).symm
    subst hres
    exact ⟨rfl, Multiset.zero_le _⟩
  | succ k ih =>
    cases l with
    | nil => cases h
    | cons x xs =>
      simp only [sampleAux, List.length_cons] at h
      cases hm : sampleAux k ((x :: xs).eraseIdx (randBelow (xs.length + 1) r).1)
          (randBelow (xs.length + 1) r).2 with
      | none => rw [hm] at h; cases h
      | some q =>
        rw [hm] at h
        simp only [Option.some_inj] at h
        obtain ⟨hlen, hle⟩ := ih hm
        have hi : (randBelow (xs.length + 1) r).1 < (x :: xs).length := by
          simpa using randBelow_lt (Nat.succ_pos xs.length) r
        have hperm : List.Perm
            ((x :: xs).getD (randBelow (xs.length + 1) r).1 x ::
              (x :: xs).eraseIdx (randBelow (xs.length + 1) r).1) (x :: xs) :=
          getD_cons_perm x hi
        have hres : res = (x :: xs).getD (randBelow (xs.length + 1) r).1 x :: q.1 :=
          (congrArg Prod.fst h).symm
        subst hres
        refine ⟨by simp [hlen], ?_⟩
        have h1 : ((x :: xs).getD (randBelow (xs.length + 1) r).1 x ::ₘ (q.1 : Multiset α))
            ≤ ((x :: xs).getD (randBelow (xs.length + 1) r).1 x ::ₘ
               ((x :: xs).eraseIdx (randBelow (xs.length + 1) r).1 : Multiset α)) :=
          Multiset.cons_le_cons _ hle
        have h2 : ((x :: xs).getD (randBelow (xs.length + 1) r).1 x ::ₘ
            ((x :: xs).eraseIdx (randBelow (xs.length + 1) r).1 : Multiset α))
            = ((x :: xs) : Multiset α) := Multiset.coe_eq_coe.mpr hperm
        rw [← Multiset.cons_coe, ← h2]
        exact h1

theorem sampleAux_isSome (k : Nat) (l : List α) (r : RGen) :
    (sampleAux k l r).isSome = true ↔ k ≤ l.length := by
  induction k generalizing l r with
  | zero => simp [sampleAux]
  | succ k ih =>
    cases l with
    | nil => simp [sampleAux]
    | cons x xs =>
      have hi : (randBelow (xs.length + 1) r).1 < (x :: xs).length := by
        simpa using randBelow_lt (Nat.succ_pos xs.length) r
      have hlen : ((x :: xs).eraseIdx (randBelow (xs.length + 1) r).1).length
          = xs.length := by
        rw [List.length_eraseIdx_of_lt hi]
        simp
      have hiff := ih ((x :: xs).eraseIdx (randBelow (xs.length + 1) r).1)
        (randBelow (xs.length + 1) r).2
      rw [hlen] at hiff
      simp only [sampleAux, List.length_cons]
      cases hm : sampleAux k ((x :: xs).eraseIdx (randBelow (xs.length + 1) r).1)
          (randBelow (xs.length + 1) r).2 with
      | none =>
        rw [hm] at hiff
        simp only [Option.isSome_none, Bool.false_eq_true, false_iff] at hiff
        constructor
        · intro hfalse; simp at hfalse
        · intro hk; exact absurd (by omega : k ≤ xs.length) hiff
      | some q =>
        rw [hm] at hiff
        simp only [Option.isSome_some, true_iff] at hiff
        constructor
        · intro _; omega
        · intro _; rfl

theorem sampleAux_map (f : α → β) (k : Nat) (l : List α) (r : RGen) :
    sampleAux k (l.map f) r
      = Option.map (fun q => (q.1.map f, q.2)) (sampleAux k l r) := by
  induction k generalizing l r with
  | zero => simp [sampleAux]
  | succ k ih =>
    cases l with
    | nil => simp [sampleAux]
    | cons x xs =>
      simp only [List.map_cons, sampleAux, List.length_cons, List.length_map]
      rw [show (f x :: xs.map f) = (x :: xs).map f from rfl, eraseIdx_map, ih]
      cases hm : sampleAux k ((x :: xs).eraseIdx (randBelow (xs.length + 1) r).1)
          (randBelow (xs.length + 1) r).2 with
      | none => simp
      | some q =>
        simp only [Option.map_some']
        rw [List.getD_map]
        simp

theorem shuffle_perm (l : List α) (r : RGen) : List.Perm (shuffle l r).1 l := by
  unfold shuffle
  cases hm : sampleAux l.length l r with
  | none => exact List.Perm.refl l
  | some q =>
    obtain ⟨hlen, hle⟩ := sampleAux_spec hm
    have hcard : Multiset.card (l : Multiset α) ≤ Multiset.card (q.1 : Multiset α) := by
      simp [hlen]
    have := Multiset.eq_of_le_of_card_le hle hcard
    exact Multiset.coe_eq_coe.mp this

theorem shuffle_map (f : α → β) (l : List α) (r : RGen) :
    shuffle (l.map f) r = ((shuffle l r).1.map f, (shuffle l r).2) := by
  unfold shuffle
  rw [List.length_map, sampleAux_map]
  cases sampleAux l.length l r <;> simp

/-! Properties of sorting and decimal formatting. -/

theorem insertSorted_perm (a : String) (l : List String) :
    List.Perm (insertSorted a l) (a :: l) := by
  induction l with
  | nil => exact List.Perm.refl [a]
  | cons b bs ih =>
    simp only [insertSorted]
    by_cases hb : strLE a b = true
    · rw [if_pos hb]
    · rw [if_neg hb]
      exact (List.Perm.cons b ih).trans (List.Perm.swap a b bs)

theorem sortStrings_perm (l : List String) : List.Perm (sortStrings l) l := by
  induction l with
  | nil => exact List.Perm.refl []
  | cons x xs ih =>
    simp only [sortStrings]
    exact (insertSorted_perm x (sortStrings xs)).trans (List.Perm.cons x ih)

theorem sortStrings_mem {a : String} {l : List String} :
    a ∈ sortStrings l ↔ a ∈ l :=
  (sortStrings_perm l).mem_iff

theorem digitChar_inj : ∀ a < 10, ∀ b < 10, digitChar a = digitChar b → a = b := by
  decide

theorem pad3_inj {m n : Nat} (hm : m < 1000) (hn : n < 1000)
    (h : pad3 m = pad3 n) : m = n := by
  simp only [pad3, if_pos hm, if_pos hn] at h
  injection h with hdata
  simp only [List.cons.injEq, and_true] at hdata
  obtain ⟨h1, h2, h3⟩ := hdata
  have e1 := digitChar_inj _ (by omega : m / 100 < 10) _ (by omega : n / 100 < 10) h1
  have e2 := digitChar_inj _ (by omega : m / 10 % 10 < 10) _
    (by omega : n / 10 % 10 < 10) h2
  have e3 := digitChar_inj _ (by omega : m % 10 < 10) _ (by omega : n % 10 < 10) h3
  omega

theorem providerId_inj {m n : Nat} (hm : m < 1000) (hn : n < 1000)
    (h : providerId m = providerId n) : m = n := by
  simp only [providerId] at h
  have hdata : ("provider-" ++ pad3 m).data = ("provider-" ++ pad3 n).data :=
    congrArg String.data h
  simp only [String.data_append] at hdata
  have := List.append_cancel_left hdata
  exact pad3_inj hm hn (by
    have : (pad3 m).data = (pad3 n).data := this
    cases hpm : pad3 m
    cases hpn : pad3 n
    simp only [hpm, hpn] at this
    simpa using congrArg String.mk this)

/-! Properties of the name retry loop. -/

theorem freshNameLoop_not_mem (seen : List String) :
    ∀ (fuel : Nat) (cand : String) (r : RGen) (nm : String) (r' : RGen),
    freshNameLoop seen fuel cand r = some (nm, r') → nm ∉ seen := by
  intro fuel
  induction fuel with
  | zero =>
    intro cand r nm r' h
    simp only [freshNameLoop] at h
    by_cases hc : cand ∈ seen
    · simp [hc] at h
    · simp only [if_neg hc, Option.some_inj] at h
      have : cand = nm := congrArg Prod.fst h
      subst this
      exact hc
  | succ f ih =>
    intro cand r nm r' h
    simp only [freshNameLoop] at h
    by_cases hc : cand ∈ seen
    · rw [if_pos hc] at h
      exact ih _ _ _ _ h
    · simp only [if_neg hc, Option.some_inj] at h
      have : cand = nm := congrArg Prod.fst h
      subst this
      exact hc

/-! Properties of provider generation. -/

theorem mkEndpoint_region {pid protocol ext : String} {countries0 : List String}
    {r r' : RGen} {e : Endpoint}
    (h : mkEndpoint pid protocol ext countries0 r = some (e, r')) :
    e.ingestRegion ∈ countries0 := by
  simp only [mkEndpoint, Option.bind_eq_bind, Option.bind_eq_some,
    Option.pure_def, Option.some_inj] at h
  obtain ⟨⟨reg, r2⟩, hc, h⟩ := h
  have he := congrArg (fun p => Endpoint.ingestRegion p.1) h
  dsimp only at he
  rw [← he]
  exact choice_mem hc

theorem mkEndpoints_region {pid : String} {countries0 : List String} :
    ∀ {protos : List (String × String)} {r r' : RGen} {eps : List Endpoint},
    mkEndpoints pid countries0 protos r = some (eps, r') →
    ∀ e ∈ eps, e.ingestRegion ∈ countries0 := by
  intro protos
  induction protos with
  | nil =>
    intro r r' eps h e he
    simp only [mkEndpoints, Option.some_inj] at h
    have hl : [] = eps := congrArg Prod.fst h
    rw [← hl] at he
    cases he
  | cons pe rest ih =>
    obtain ⟨pr, ex⟩ := pe
    intro r r' eps h e he
    simp only [mkEndpoints, Option.bind_eq_bind, Option.bind_eq_some,
      Option.pure_def, Option.some_inj] at h
    obtain ⟨⟨e1, r1⟩, h1, ⟨⟨es2, r2⟩, h2, h3⟩⟩ := h
    have hl := congrArg Prod.fst h3
    dsimp only at hl
    rw [← hl] at he
    rcases List.mem_cons.mp he with rfl | hmem
    · exact mkEndpoint_region h1
    · exact ih h2 e hmem

theorem mkProvider_spec {fuel idx : Nat} {seen : List String} {r r' : RGen}
    {p : Provider} (h : mkProvider fuel idx seen r = some (p, r')) :
    p.id = providerId idx ∧ p.name ∉ seen
      ∧ ∀ ep ∈ p.endpoints, ep.ingestRegion ∈ p.countries := by
  simp only [mkProvider, Option.bind_eq_bind, Option.bind_eq_some,
    Option.pure_def, Option.some_inj] at h
  obtain ⟨⟨nm, r1⟩, hnm, h⟩ := h
  obtain ⟨⟨focus, r2⟩, hf, h⟩ := h
  obtain ⟨⟨countries0, r3⟩, hcs, h⟩ := h
  obtain ⟨⟨langs, r4⟩, hl, h⟩ := h
  obtain ⟨⟨protos, r6⟩, hp, h⟩ := h
  obtain ⟨⟨eps, r7⟩, he, h⟩ := h
  have hid := congrArg (fun q => Provider.id q.1) h
  dsimp only at hid
  have hname := congrArg (fun q => Provider.name q.1) h
  dsimp only at hname
  have heps := congrArg (fun q => Provider.endpoints q.1) h
  dsimp only at heps
  have hcountries := congrArg (fun q => Provider.countries q.1) h
  dsimp only at hcountries
  refine ⟨hid.symm, ?_, ?_⟩
  · rw [← hname]
    exact freshNameLoop_not_mem seen fuel _ _ _ _ hnm
  · intro ep hep
    rw [← heps] at hep
    rw [← hcountries, sortStrings_mem]
    exact mkEndpoints_region he ep hep

theorem genProvidersAux_spec (fuel : Nat) :
    ∀ (count idx : Nat) (seen : List String) (r r' : RGen) (ps : List Provider),
    genProvidersAux fuel idx count seen r = some (ps, r') →
    ps.map Provider.id = (List.range' idx count).map providerId
    ∧ (∀ nm ∈ ps.map Provider.name, nm ∉ seen)
    ∧ (ps.map Provider.name).Nodup
    ∧ ∀ p ∈ ps, ∀ ep ∈ p.endpoints, ep.ingestRegion ∈ p.countries := by
  intro count
  induction count with
  | zero =>
    intro idx seen r r' ps h
    simp only [genProvidersAux, Option.some_inj] at h
    have hl : [] = ps := congrArg Prod.fst h
    rw [← hl]
    simp
  | succ k ih =>
    intro idx seen r r' ps h
    simp only [genProvidersAux, Option.bind_eq_bind, Option.bind_eq_some,
      Option.pure_def, Option.some_inj] at h
    obtain ⟨⟨p, r1⟩, hp, ⟨⟨rest, r2⟩, hrest, h3⟩⟩ := h
    have hl := congrArg Prod.fst h3
    dsimp only at hl
    rw [← hl]
    obtain ⟨hid, hfresh, hreg⟩ := mkProvider_spec hp
    obtain ⟨ihids, ihseen, ihnodup, ihreg⟩ := ih (idx + 1) (p.name :: seen) r1 r2 rest hrest
    refine ⟨?_, ?_, ?_, ?_⟩
    · rw [List.range'_succ]
      simp only [List.map_cons]
      rw [hid, ihids]
    · intro nm hnm
      simp only [List.map_cons] at hnm
      rcases List.mem_cons.mp hnm with rfl | hmem
      · exact hfresh
      · intro hseen
        exact ihseen nm hmem (List.mem_cons_of_mem _ hseen)
    · simp only [List.map_cons, List.nodup_cons]
      refine ⟨?_, ihnodup⟩
      intro hmem
      exact ihseen p.name hmem (List.mem_cons_self _ _)
    · intro q hq
      rcases List.mem_cons.mp hq with rfl | hmem
      · exact hreg
      · exact ihreg q hmem

/-! Properties of event generation. -/

theorem isSome_bind_of {o : Option α} {f : α → Option β}
    (h1 : o.isSome = true) (h2 : ∀ x, (f x).isSome = true) :
    (o.bind f).isSome = true := by
  cases o with
  | none => cases h1
  | some a => exact h2 a

theorem randint24_bounds (R : RGen) :
    2 ≤ (randint 2 4 R).1 ∧ (randint 2 4 R).1 ≤ 4 :=
  randint_bounds (by omega) R

theorem genOneEvent_spec {providers : List Provider} {nowDay idx : Nat}
    {r r' : RGen} {e : Event}
    (h : genOneEvent providers nowDay idx r = some (e, r')) :
    (∀ pid ∈ e.providers, ∃ p ∈ providers, p.id = pid)
    ∧ 2 ≤ e.providers.length ∧ e.providers.length ≤ 4
    ∧ ((providers.map Provider.id).Nodup → e.providers.Nodup) := by
  simp only [genOneEvent, Option.bind_eq_bind, Option.bind_eq_some,
    Option.pure_def, Option.some_inj] at h
  obtain ⟨⟨psample, r1⟩, hs, h⟩ := h
  have hprov := congrArg (fun q => Event.providers q.1) h
  dsimp only at hprov
  rw [← hprov]
  obtain ⟨hlen, hle⟩ := sampleAux_spec hs
  refine ⟨?_, ?_, ?_, ?_⟩
  · intro pid hpid
    obtain ⟨p, hp, hpi⟩ := List.mem_map.mp hpid
    exact ⟨p, Multiset.mem_coe.mp (Multiset.mem_of_le hle (Multiset.mem_coe.mpr hp)), hpi⟩
  · rw [List.length_map, hlen]
    exact (randint24_bounds _).1
  · rw [List.length_map, hlen]
    exact (randint24_bounds _).2
  · intro hnodup
    have hmaple : (Multiset.map Provider.id (psample : Multiset Provider))
        ≤ Multiset.map Provider.id (providers : Multiset Provider) :=
      Multiset.map_le_map hle
    have hcoe1 : Multiset.map Provider.id (psample : Multiset Provider)
        = ((psample.map Provider.id : List String) : Multiset String) := rfl
    have hcoe2 : Multiset.map Provider.id (providers : Multiset Provider)
        = ((providers.map Provider.id : List String) : Multiset String) := rfl
    rw [hcoe1, hcoe2] at hmaple
    have := Multiset.nodup_of_le hmaple (Multiset.coe_nodup.mpr hnodup)
    exact Multiset.coe_nodup.mp this

theorem genOneEvent_isSome {providers : List Provider} {nowDay idx : Nat}
    {r : RGen} (hlen : 4 ≤ providers.length) :
    (genOneEvent providers nowDay idx r).isSome = true := by
  simp only [genOneEvent, Option.bind_eq_bind]
  apply isSome_bind_of
  · exact (sampleAux_isSome _ providers _).mpr
      (le_trans (randint24_bounds _).2 hlen)
  · intro x
    simp

theorem genOneEvent_none {providers : List Provider} {nowDay idx : Nat}
    {r : RGen} (hlen : providers.length < 2) :
    genOneEvent providers nowDay idx r = none := by
  simp only [genOneEvent, Option.bind_eq_bind]
  have hnone : ∀ (k : Nat) (R : RGen), 2 ≤ k → sample providers k R = none := by
    intro k R h2
    have hno : ¬ ((sampleAux k providers R).isSome = true) := by
      rw [sampleAux_isSome]
      omega
    have := Option.not_isSome_iff_eq_none.mp (by simpa using hno)
    exact this
  rw [hnone _ _ (randint24_bounds _).1]
  rfl

theorem genEventsAux_spec {providers : List Provider} {nowDay : Nat} :
    ∀ {count idx : Nat} {r r' : RGen} {es : List Event},
    genEventsAux providers nowDay idx count r = some (es, r') →
    es.length = count
    ∧ ∀ e ∈ es,
      (∀ pid ∈ e.providers, ∃ p ∈ providers, p.id = pid)
      ∧ 2 ≤ e.providers.length ∧ e.providers.length ≤ 4
      ∧ ((providers.map Provider.id).Nodup → e.providers.Nodup) := by
  intro count
  induction count with
  | zero =>
    intro idx r r' es h
    simp only [genEventsAux, Option.some_inj] at h
    have hl : [] = es := congrArg Prod.fst h
    rw [← hl]
    simp
  | succ k ih =>
    intro idx r r' es h
    simp only [genEventsAux, Option.bind_eq_bind, Option.bind_eq_some,
      Option.pure_def, Option.some_inj] at h
    obtain ⟨⟨e, r1⟩, he, ⟨⟨rest, r2⟩, hrest, h3⟩⟩ := h
    have hl := congrArg Prod.fst h3
    dsimp only at hl
    rw [← hl]
    obtain ⟨ihlen, ihall⟩ := ih hrest
    refine ⟨by simp [ihlen], ?_⟩
    intro ev hev
    rcases List.mem_cons.mp hev with rfl | hmem
    · exact genOneEvent_spec he
    · exact ihall ev hmem

theorem genEventsAux_isSome {providers : List Provider} {nowDay : Nat}
    (hlen : 4 ≤ providers.length) :
    ∀ (count idx : Nat) (r : RGen),
    (genEventsAux providers nowDay idx count r).isSome = true := by
  intro count
  induction count with
  | zero => intro idx r; simp [genEventsAux]
  | succ k ih =>
    intro idx r
    simp only [genEventsAux, Option.bind_eq_bind]
    apply isSome_bind_of (genOneEvent_isSome hlen)
    intro x
    apply isSome_bind_of (ih (idx + 1) x.2)
    intro y
    simp

theorem genEventsAux_none {providers : List Provider} {nowDay : Nat}
    (hlen : providers.length < 2) (count idx : Nat) (r : RGen)
    (hc : 1 ≤ count) :
    genEventsAux providers nowDay idx count r = none := by
  cases count with
  | zero => omega
  | succ k =>
    simp only [genEventsAux, Option.bind_eq_bind]
    rw [genOneEvent_none hlen]
    rfl

theorem map_bind_congr {o : Option α} {f : β → γ} {g₁ g₂ : α → Option β}
    (h : ∀ x, Option.map f (g₁ x) = Option.map f (g₂ x)) :
    Option.map f (o.bind g₁) = Option.map f (o.bind g₂) := by
  cases o with
  | none => rfl
  | some a => exact h a

theorem genOneEvent_shape (providers : List Provider) (n₁ n₂ idx : Nat)
    (r : RGen) :
    Option.map (fun q => (eventShape q.1, q.2)) (genOneEvent providers n₁ idx r)
      = Option.map (fun q => (eventShape q.1, q.2))
        (genOneEvent providers n₂ idx r) := by
  simp only [genOneEvent, Option.bind_eq_bind]
  apply map_bind_congr
  intro x
  simp [eventShape]

theorem genEventsAux_shape (providers : List Provider) (n₁ n₂ : Nat) :
    ∀ (count idx : Nat) (r : RGen),
    Option.map (fun q => (q.1.map eventShape, q.2))
        (genEventsAux providers n₁ idx count r)
      = Option.map (fun q => (q.1.map eventShape, q.2))
        (genEventsAux providers n₂ idx count r) := by
  intro count
  induction count with
  | zero => intro idx r; simp [genEventsAux]
  | succ k ih =>
    intro idx r
    simp only [genEventsAux, Option.bind_eq_bind]
    have h1 := genOneEvent_shape providers n₁ n₂ idx r
    cases hA : genOneEvent providers n₁ idx r with
    | none =>
      rw [hA] at h1
      cases hB : genOneEvent providers n₂ idx r with
      | none => simp
      | some qB => rw [hB] at h1; simp at h1
    | some qA =>
      cases hB : genOneEvent providers n₂ idx r with
      | none => rw [hA, hB] at h1; simp at h1
      | some qB =>
        rw [hA, hB] at h1
        simp only [Option.map_some', Option.some_inj] at h1
        obtain ⟨eA, rA⟩ := qA
        obtain ⟨eB, rB⟩ := qB
        have hsh : eventShape eA = eventShape eB := congrArg Prod.fst h1
        have hr : rA = rB := congrArg Prod.snd h1
        simp only [Option.some_bind]
        rw [← hr]
        have h2 := ih (idx + 1) rA
        cases hC : genEventsAux providers n₁ (idx + 1) k rA with
        | none =>
          rw [hC] at h2
          cases hD : genEventsAux providers n₂ (idx + 1) k rA with
          | none => simp
          | some qD => rw [hD] at h2; simp at h2
        | some qC =>
          cases hD : genEventsAux providers n₂ (idx + 1) k rA with
          | none => rw [hC, hD] at h2; simp at h2
          | some qD =>
            rw [hC, hD] at h2
            simp only [Option.map_some', Option.some_inj] at h2
            obtain ⟨esC, rC⟩ := qC
            obtain ⟨esD, rD⟩ := qD
            have hsh2 : esC.map eventShape = esD.map eventShape :=
              congrArg Prod.fst h2
            have hr2 : rC = rD := congrArg Prod.snd h2
            simp [hsh, hsh2, hr2]

/-! Properties of chunking. -/

theorem chunks5F_flatten :
    ∀ (fuel : Nat) (l : List α), l.length ≤ fuel →
    (chunks5F fuel l).flatten = l := by
  intro fuel
  induction fuel with
  | zero =>
    intro l hl
    cases l with
    | nil => rfl
    | cons x xs => simp at hl
  | succ f ih =>
    intro l hl
    cases l with
    | nil => rfl
    | cons x xs =>
      simp only [chunks5F, List.flatten_cons]
      rw [ih (xs.drop 4) (by simp at hl ⊢; omega)]
      simp

theorem chunks5_flatten (l : List α) : (chunks5 l).flatten = l :=
  chunks5F_flatten l.length l (Nat.le_refl _)

theorem chunks5F_length_le :
    ∀ (fuel : Nat) (l : List α), l.length ≤ fuel →
    ∀ c ∈ chunks5F fuel l, c.length ≤ 5 := by
  intro fuel
  induction fuel with
  | zero =>
    intro l hl c hc
    cases l with
    | nil => cases hc
    | cons x xs => simp at hl
  | succ f ih =>
    intro l hl c hc
    cases l with
    | nil => cases hc
    | cons x xs =>
      simp only [chunks5F] at hc
      rcases List.mem_cons.mp hc with rfl | hmem
      · simp only [List.length_cons, List.length_take]
        omega
      · exact ih (xs.drop 4) (by simp at hl ⊢; omega) c hmem

theorem chunks5_length_le (l : List α) : ∀ c ∈ chunks5 l, c.length ≤ 5 :=
  chunks5F_length_le l.length l (Nat.le_refl _)

theorem chunks5F_map (f : α → β) :
    ∀ (fuel : Nat) (l : List α),
    chunks5F fuel (l.map f) = (chunks5F fuel l).map (List.map f) := by
  intro fuel
  induction fuel with
  | zero =>
    intro l
    cases l with
    | nil => rfl
    | cons x xs => rfl
  | succ f ih =>
    intro l
    cases l with
    | nil => rfl
    | cons x xs =>
      simp only [List.map_cons, chunks5F, List.map_take]
      rw [← List.map_drop, ih]

theorem chunks5_map (f : α → β) (l : List α) :
    chunks5 (l.map f) = (chunks5 l).map (List.map f) := by
  unfold chunks5
  rw [List.length_map, chunks5F_map]

/-! Properties of the sport grouping. -/

/-- Lookup of the entry of a sport in the grouping association list
(proof helper). -/
def findGroup (s : String) : List (String × List Event) → List Event
  | [] => []
  | (t, es) :: gs => if t = s then es else findGroup s gs

/-- The keys of the grouping association list, in order (proof helper). -/
def groupKeys (gs : List (String × List Event)) : List String :=
  gs.map Prod.fst

theorem findGroup_addToGroup (s : String) (e : Event) :
    ∀ (gs : List (String × List Event)),
    findGroup s (addToGroup gs e)
      = if e.sport = s then findGroup s gs ++ [e] else findGroup s gs := by
  intro gs
  induction gs with
  | nil =>
    simp only [addToGroup, findGroup]
    by_cases h : e.sport = s
    · simp [h]
    · simp [h]
  | cons g gs ih =>
    obtain ⟨t, es⟩ := g
    simp only [addToGroup]
    by_cases h1 : t = e.sport
    · rw [if_pos h1]
      simp only [findGroup]
      by_cases h2 : t = s
      · rw [if_pos h2, if_pos (h1 ▸ h2), if_pos h2]
      · rw [if_neg h2, if_neg h2, if_neg (fun hes => h2 (h1.trans hes))]
    · rw [if_neg h1]
      simp only [findGroup]
      by_cases h2 : t = s
      · rw [if_pos h2, if_pos h2]
        have : ¬ (e.sport = s) := fun hes => h1 (h2.trans hes.symm)
        rw [if_neg this]
      · rw [if_neg h2, if_neg h2, ih]

theorem findGroup_foldl (s : String) :
    ∀ (es : List Event) (acc : List (String × List Event)),
    findGroup s (es.foldl addToGroup acc)
      = findGroup s acc ++ es.filter (fun e => e.sport == s) := by
  intro es
  induction es with
  | nil => intro acc; simp
  | cons e es ih =>
    intro acc
    simp only [List.foldl_cons, ih, findGroup_addToGroup]
    by_cases h : e.sport = s
    · rw [if_pos h]
      rw [List.filter_cons_of_pos (by simpa using h)]
      simp
    · rw [if_neg h]
      rw [List.filter_cons_of_neg (by simpa using h)]

theorem findGroup_groupBySport (s : String) (events : List Event) :
    findGroup s (groupBySport events)
      = events.filter (fun e => e.sport == s) := by
  unfold groupBySport
  rw [findGroup_foldl]
  rfl

theorem groupKeys_addToGroup (e : Event) :
    ∀ (gs : List (String × List Event)),
    groupKeys (addToGroup gs e)
      = if e.sport ∈ groupKeys gs then groupKeys gs
        else groupKeys gs ++ [e.sport] := by
  intro gs
  induction gs with
  | nil => simp [addToGroup, groupKeys]
  | cons g gs ih =>
    obtain ⟨t, es⟩ := g
    simp only [addToGroup]
    by_cases h1 : t = e.sport
    · rw [if_pos h1]
      simp only [groupKeys, List.map_cons]
      rw [if_pos (by simp [h1.symm])]
    · rw [if_neg h1]
      simp only [groupKeys, List.map_cons] at ih ⊢
      rw [ih]
      by_cases h2 : e.sport ∈ gs.map Prod.fst
      · rw [if_pos h2, if_pos (List.mem_cons_of_mem _ h2)]
      · rw [if_neg h2, if_neg ?_]
        · simp
        · intro hmem
          rcases List.mem_cons.mp hmem with heq | hmem2
          · exact h1 heq.symm
          · exact h2 hmem2

theorem groupKeys_nodup (events : List Event) :
    (groupKeys (groupBySport events)).Nodup := by
  have main : ∀ (es : List Event) (acc : List (String × List Event)),
      (groupKeys acc).Nodup → (groupKeys (es.foldl addToGroup acc)).Nodup := by
    intro es
    induction es with
    | nil => intro acc h; exact h
    | cons e es ih =>
      intro acc h
      simp only [List.foldl_cons]
      apply ih
      rw [groupKeys_addToGroup]
      by_cases hm : e.sport ∈ groupKeys acc
      · rw [if_pos hm]; exact h
      · rw [if_neg hm]
        simp only [List.nodup_append, List.nodup_cons]
        exact ⟨h, by simp, by simpa using hm⟩
  exact main events [] (by simp [groupKeys])

theorem findGroup_of_mem {s : String} {es : List Event} :
    ∀ {gs : List (String × List Event)},
    (groupKeys gs).Nodup → (s, es) ∈ gs → findGroup s gs = es := by
  intro gs
  induction gs with
  | nil => intro _ h; cases h
  | cons g gs ih =>
    obtain ⟨t, ls⟩ := g
    intro hnodup hmem
    simp only [groupKeys, List.map_cons, List.nodup_cons] at hnodup
    rcases List.mem_cons.mp hmem with heq | hmem2
    · obtain ⟨h1, h2⟩ := Prod.mk.injEq .. ▸ heq
      simp only [findGroup]
      rw [if_pos h1.symm]
      exact h2.symm
    · simp only [findGroup]
      by_cases h2 : t = s
      · exfalso
        apply hnodup.1
        subst h2
        exact List.mem_map.mpr ⟨(t, es), hmem2, rfl⟩
      · rw [if_neg h2]
        exact ih hnodup.2 hmem2

/-! Properties of playlist generation. -/

theorem mkPlaylistsForChunks_events (s : String) :
    ∀ (cs : List (List Event)) (idx : Nat) (r : RGen),
    (mkPlaylistsForChunks s cs idx r).1.map Playlist.events
      = cs.map (fun c => c.map Event.id) := by
  intro cs
  induction cs with
  | nil => intro idx r; rfl
  | cons c cs ih =>
    intro idx r
    simp only [mkPlaylistsForChunks, List.map_cons, mkOnePlaylist]
    rw [ih]

theorem mkPlaylistsForChunks_mem (s : String) :
    ∀ (cs : List (List Event)) (idx : Nat) (r : RGen),
    ∀ p ∈ (mkPlaylistsForChunks s cs idx r).1,
      p.sport = s
      ∧ (∃ n, p.id = "playlist-" ++ pad3 n ++ "-" ++ s
          ∧ p.title = pyTitle (dashToSpace s) ++ " Weekly Mix #" ++ pad2 (n + 1))
      ∧ ∃ c ∈ cs, p.events = c.map Event.id := by
  intro cs
  induction cs with
  | nil => intro idx r p hp; cases hp
  | cons c cs ih =>
    intro idx r p hp
    simp only [mkPlaylistsForChunks] at hp
    rcases List.mem_cons.mp hp with rfl | hmem
    · refine ⟨rfl, ⟨idx, rfl, rfl⟩, c, List.mem_cons_self _ _, rfl⟩
    · obtain ⟨h1, h2, c', hc', h3⟩ := ih (idx + 1) _ p hmem
      exact ⟨h1, h2, c', List.mem_cons_of_mem _ hc', h3⟩

theorem genPlaylistsAux_mem :
    ∀ (gs : List (String × List Event)) (idx : Nat) (r : RGen),
    ∀ p ∈ (genPlaylistsAux gs idx r).1,
      p.sport ∈ groupKeys gs
      ∧ (∃ n, p.id = "playlist-" ++ pad3 n ++ "-" ++ p.sport
          ∧ p.title = pyTitle (dashToSpace p.sport) ++ " Weekly Mix #" ++ pad2 (n + 1))
      ∧ p.events.length ≤ 5
      ∧ ∃ es, (p.sport, es) ∈ gs ∧ ∀ eid ∈ p.events, ∃ e ∈ es, e.id = eid := by
  intro gs
  induction gs with
  | nil => intro idx r p hp; cases hp
  | cons g gs ih =>
    obtain ⟨s, es⟩ := g
    intro idx r p hp
    simp only [genPlaylistsAux] at hp
    rcases List.mem_append.mp hp with hmem | hmem
    · obtain ⟨hsport, hid, c, hc, hev⟩ :=
        mkPlaylistsForChunks_mem s (chunks5 (shuffle es r).1) idx (shuffle es r).2 p hmem
      subst hsport
      refine ⟨by simp [groupKeys], hid, ?_, ?_⟩
      · rw [hev, List.length_map]
        exact chunks5_length_le _ c hc
      · refine ⟨es, List.mem_cons_self _ _, ?_⟩
        intro eid heid
        rw [hev] at heid
        obtain ⟨e, he, heq⟩ := List.mem_map.mp heid
        have he2 : e ∈ (shuffle es r).1 := by
          have : c ∈ chunks5 (shuffle es r).1 := hc
          have hsub : e ∈ (chunks5 (shuffle es r).1).flatten :=
            List.mem_flatten.mpr ⟨c, this, he⟩
          rwa [chunks5_flatten] at hsub
        exact ⟨e, (shuffle_perm es r).mem_iff.mp he2, heq⟩
    · obtain ⟨h1, h2, h3, es', hes', h4⟩ := ih _ _ p hmem
      exact ⟨List.mem_cons_of_mem _ h1, h2, h3, es', List.mem_cons_of_mem _ hes', h4⟩

theorem genPlaylistsAux_filter_perm :
    ∀ (gs : List (String × List Event)) (idx : Nat) (r : RGen) (s : String),
    (groupKeys gs).Nodup →
    List.Perm
      (((genPlaylistsAux gs idx r).1.filter (fun p => p.sport == s)).flatMap
        Playlist.events)
      ((findGroup s gs).map Event.id) := by
  intro gs
  induction gs with
  | nil =>
    intro idx r s _
    simp [genPlaylistsAux, findGroup]
  | cons g gs ih =>
    obtain ⟨t, es⟩ := g
    intro idx r s hnodup
    simp only [groupKeys, List.map_cons, List.nodup_cons] at hnodup
    simp only [genPlaylistsAux, List.filter_append, List.flatMap_append, findGroup]
    by_cases hts : t = s
    · subst hts
      have hall : (mkPlaylistsForChunks t (chunks5 (shuffle es r).1) idx
          (shuffle es r).2).1.filter (fun p => p.sport == t)
          = (mkPlaylistsForChunks t (chunks5 (shuffle es r).1) idx
            (shuffle es r).2).1 := by
        rw [List.filter_eq_self]
        intro p hp
        have := (mkPlaylistsForChunks_mem t _ _ _ p hp).1
        simp [this]
      have hrest : ((genPlaylistsAux gs
          (mkPlaylistsForChunks t (chunks5 (shuffle es r).1) idx
            (shuffle es r).2).2.1
          (mkPlaylistsForChunks t (chunks5 (shuffle es r).1) idx
            (shuffle es r).2).2.2).1.filter (fun p => p.sport == t)) = [] := by
        rw [List.filter_eq_nil_iff]
        intro p hp
        have := (genPlaylistsAux_mem gs _ _ p hp).1
        intro hbeq
        apply hnodup.1
        rw [← (by simpa using hbeq : p.sport = t)]
        exact this
      rw [hall, hrest, if_pos rfl]
      have hev : (mkPlaylistsForChunks t (chunks5 (shuffle es r).1) idx
          (shuffle es r).2).1.flatMap Playlist.events
          = ((shuffle es r).1).map Event.id := by
        rw [List.flatMap_def, mkPlaylistsForChunks_events]
        rw [← List.map_flatten, chunks5_flatten]
      rw [hev]
      simp only [List.flatMap_nil, List.append_nil]
      exact (shuffle_perm es r).map Event.id
    · have hnone : (mkPlaylistsForChunks t (chunks5 (shuffle es r).1) idx
          (shuffle es r).2).1.filter (fun p => p.sport == s) = [] := by
        rw [List.filter_eq_nil_iff]
        intro p hp
        have := (mkPlaylistsForChunks_mem t _ _ _ p hp).1
        intro hbeq
        exact hts (this ▸ (by simpa using hbeq : p.sport = s))
      rw [hnone, if_neg hts]
      simp only [List.flatMap_nil, List.nil_append]
      exact ih _ _ s hnodup.2

/-! Counting helpers for the partition property. -/

theorem count_flatMap_sum (a : String) :
    ∀ (l : List Playlist),
    ((l.flatMap Playlist.events).count a)
      = (l.map (fun p => p.events.count a)).sum := by
  intro l
  induction l with
  | nil => rfl
  | cons p ps ih =>
    simp only [List.flatMap_cons, List.count_append, List.map_cons, List.sum_cons, ih]

theorem sum_zero_countP :
    ∀ (ns : List Nat), ns.sum = 0 → ns.countP (fun n => decide (0 < n)) = 0 := by
  intro ns
  induction ns with
  | nil => intro _; rfl
  | cons n ns ih =>
    intro h
    simp only [List.sum_cons] at h
    have hn : n = 0 := by omega
    have hns : ns.sum = 0 := by omega
    rw [List.countP_cons, ih hns, hn]
    simp

theorem sum_one_countP :
    ∀ (ns : List Nat), ns.sum = 1 → ns.countP (fun n => decide (0 < n)) = 1 := by
  intro ns
  induction ns with
  | nil => intro h; simp at h
  | cons n ns ih =>
    intro h
    simp only [List.sum_cons] at h
    rw [List.countP_cons]
    by_cases hn : n = 0
    · subst hn
      rw [ih (by omega)]
      simp
    · have hn1 : n = 1 := by omega
      rw [sum_zero_countP ns (by omega), hn1]
      simp

theorem playlists_sport_of_mem_id {events : List Event} {r : RGen}
    (hnodup : (events.map Event.id).Nodup) {e : Event} (he : e ∈ events) :
    ∀ p ∈ (generate_playlists events r).1, e.id ∈ p.events →
      p.sport = e.sport := by
  intro p hp hid
  simp only [generate_playlists] at hp
  obtain ⟨_, _, _, es', hes', hev⟩ :=
    genPlaylistsAux_mem (groupBySport events) 1 r p hp
  obtain ⟨e', he', heq⟩ := hev e.id hid
  have hes : es' = events.filter (fun x => x.sport == p.sport) :=
    ((findGroup_of_mem (groupKeys_nodup events) hes').symm).trans
      (findGroup_groupBySport _ _)
  rw [hes] at he'
  have he'mem : e' ∈ events := (List.mem_filter.mp he').1
  have he'sport : e'.sport = p.sport := by
    simpa using (List.mem_filter.mp he').2
  have hee : e' = e := List.inj_on_of_nodup_map hnodup he'mem he heq
  rw [← he'sport, hee]

theorem playlists_countP_one {events : List Event} {r : RGen}
    (hnodup : (events.map Event.id).Nodup) {e : Event} (he : e ∈ events) :
    (generate_playlists events r).1.countP
      (fun p => decide (e.id ∈ p.events)) = 1 := by
  have hkeys := groupKeys_nodup events
  have hsport := @playlists_sport_of_mem_id events r hnodup e he
  have hcount_eq : (generate_playlists events r).1.countP
      (fun p => decide (e.id ∈ p.events))
      = ((generate_playlists events r).1.filter
          (fun p => p.sport == e.sport)).countP
          (fun p => decide (e.id ∈ p.events)) := by
    rw [List.countP_filter]
    apply List.countP_congr
    intro p hp
    by_cases hid : e.id ∈ p.events
    · simp [hid, hsport p hp hid]
    · simp [hid]
  have hperm : List.Perm
      (((generate_playlists events r).1.filter
        (fun p => p.sport == e.sport)).flatMap Playlist.events)
      ((findGroup e.sport (groupBySport events)).map Event.id) := by
    simp only [generate_playlists]
    exact genPlaylistsAux_filter_perm (groupBySport events) 1 r e.sport hkeys
  have hL : findGroup e.sport (groupBySport events)
      = events.filter (fun x => x.sport == e.sport) :=
    findGroup_groupBySport _ _
  have hLnodup : ((events.filter (fun x => x.sport == e.sport)).map
      Event.id).Nodup :=
    ((List.filter_sublist events).map Event.id).nodup hnodup
  have heL : e.id ∈ (events.filter (fun x => x.sport == e.sport)).map Event.id :=
    List.mem_map_of_mem _ (List.mem_filter.mpr ⟨he, by simp⟩)
  have hcnt1 : ((events.filter (fun x => x.sport == e.sport)).map
      Event.id).count e.id = 1 := by
    have hle := List.nodup_iff_count_le_one.mp hLnodup e.id
    have hpos := List.count_pos_iff.mpr heL
    omega
  have hflat : (((generate_playlists events r).1.filter
      (fun p => p.sport == e.sport)).flatMap Playlist.events).count e.id = 1 := by
    rw [hperm.count_eq, hL, hcnt1]
  have hsum : (((generate_playlists events r).1.filter
      (fun p => p.sport == e.sport)).map
        (fun p => p.events.count e.id)).sum = 1 := by
    rw [← count_flatMap_sum]
    exact hflat
  rw [hcount_eq]
  calc ((generate_playlists events r).1.filter
        (fun p => p.sport == e.sport)).countP (fun p => decide (e.id ∈ p.events))
      = ((generate_playlists events r).1.filter
          (fun p => p.sport == e.sport)).countP
          ((fun n => decide (0 < n)) ∘ (fun p => p.events.count e.id)) :=
        List.countP_congr (by
          intro p hp
          simp [Function.comp, List.count_pos_iff])
    _ = (((generate_playlists events r).1.filter
          (fun p => p.sport == e.sport)).map
            (fun p => p.events.count e.id)).countP (fun n => decide (0 < n)) :=
        (List.countP_map _ _ _).symm
    _ = 1 := sum_one_countP _ hsum

/-! Playlist generation depends on events only through their sport and
id; proof helpers for the run-date independence of the output shape. -/

/-- The sport and id of an event (proof helper). -/
def evPair (e : Event) : String × String := (e.sport, e.id)

/-- The grouping association list with events projected to sport and id
(proof helper). -/
def groupsProj (gs : List (String × List Event)) : List (String × List (String × String)) :=
  gs.map (fun g => (g.1, g.2.map evPair))

theorem addToGroup_proj {e₁ e₂ : Event} (he : evPair e₁ = evPair e₂) :
    ∀ {gs₁ gs₂ : List (String × List Event)},
    groupsProj gs₁ = groupsProj gs₂ →
    groupsProj (addToGroup gs₁ e₁) = groupsProj (addToGroup gs₂ e₂) := by
  have hsport : e₁.sport = e₂.sport := congrArg Prod.fst he
  intro gs₁
  induction gs₁ with
  | nil =>
    intro gs₂ hg
    cases gs₂ with
    | nil => simp [addToGroup, groupsProj, hsport, he]
    | cons g gs => simp [groupsProj] at hg
  | cons g gs ih =>
    intro gs₂ hg
    cases gs₂ with
    | nil => simp [groupsProj] at hg
    | cons g₂ gs₂ =>
      obtain ⟨t₁, l₁⟩ := g
      obtain ⟨t₂, l₂⟩ := g₂
      simp only [groupsProj, List.map_cons, List.cons.injEq, Prod.mk.injEq] at hg
      obtain ⟨⟨ht, hl⟩, htail⟩ := hg
      subst ht
      simp only [addToGroup]
      by_cases hc : t₁ = e₁.sport
      · rw [if_pos hc, if_pos (hsport ▸ hc)]
        simp only [groupsProj, List.map_cons, List.cons.injEq, Prod.mk.injEq]
        refine ⟨⟨trivial, ?_⟩, htail⟩
        simp [hl, he]
      · rw [if_neg hc, if_neg (fun hx => hc (hsport.symm ▸ hx))]
        simp only [groupsProj, List.map_cons, List.cons.injEq, Prod.mk.injEq]
        exact ⟨⟨trivial, hl⟩, ih htail⟩

theorem groupBySport_proj {es₁ es₂ : List Event}
    (h : es₁.map evPair = es₂.map evPair) :
    groupsProj (groupBySport es₁) = groupsProj (groupBySport es₂) := by
  have main : ∀ (es₁ : List Event) (es₂ : List Event)
      (acc₁ acc₂ : List (String × List Event)),
      es₁.map evPair = es₂.map evPair →
      groupsProj acc₁ = groupsProj acc₂ →
      groupsProj (es₁.foldl addToGroup acc₁)
        = groupsProj (es₂.foldl addToGroup acc₂) := by
    intro es₁
    induction es₁ with
    | nil =>
      intro es₂ acc₁ acc₂ hmap hacc
      cases es₂ with
      | nil => exact hacc
      | cons f fs => simp at hmap
    | cons e es ih =>
      intro es₂ acc₁ acc₂ hmap hacc
      cases es₂ with
      | nil => simp at hmap
      | cons f fs =>
        simp only [List.map_cons, List.cons.injEq] at hmap
        simp only [List.foldl_cons]
        exact ih fs _ _ hmap.2 (addToGroup_proj hmap.1 hacc)
  exact main es₁ es₂ [] [] h rfl

theorem shuffle_proj {es₁ es₂ : List Event}
    (h : es₁.map evPair = es₂.map evPair) (r : RGen) :
    (shuffle es₁ r).1.map evPair = (shuffle es₂ r).1.map evPair
      ∧ (shuffle es₁ r).2 = (shuffle es₂ r).2 := by
  have h1 := shuffle_map evPair es₁ r
  have h2 := shuffle_map evPair es₂ r
  rw [h] at h1
  rw [h2] at h1
  exact ⟨(congrArg Prod.fst h1).symm, (congrArg Prod.snd h1).symm⟩

theorem chunk_map_id_of_proj {c₁ c₂ : List Event}
    (h : c₁.map evPair = c₂.map evPair) :
    c₁.map Event.id = c₂.map Event.id := by
  have h1 : c₁.map Event.id = (c₁.map evPair).map Prod.snd := by
    rw [List.map_map]; rfl
  have h2 : c₂.map Event.id = (c₂.map evPair).map Prod.snd := by
    rw [List.map_map]; rfl
  rw [h1, h2, h]

theorem mkPlaylistsForChunks_proj (s : String) :
    ∀ {cs₁ cs₂ : List (List Event)},
    cs₁.map (fun c => c.map evPair) = cs₂.map (fun c => c.map evPair) →
    ∀ (idx : Nat) (r : RGen),
    mkPlaylistsForChunks s cs₁ idx r = mkPlaylistsForChunks s cs₂ idx r := by
  intro cs₁
  induction cs₁ with
  | nil =>
    intro cs₂ h idx r
    cases cs₂ with
    | nil => rfl
    | cons c cs => simp at h
  | cons c cs ih =>
    intro cs₂ h idx r
    cases cs₂ with
    | nil => simp at h
    | cons c₂ cs₂ =>
      simp only [List.map_cons, List.cons.injEq] at h
      simp only [mkPlaylistsForChunks, mkOnePlaylist]
      rw [chunk_map_id_of_proj h.1, ih h.2]

theorem genPlaylistsAux_proj :
    ∀ {gs₁ gs₂ : List (String × List Event)},
    groupsProj gs₁ = groupsProj gs₂ →
    ∀ (idx : Nat) (r : RGen),
    genPlaylistsAux gs₁ idx r = genPlaylistsAux gs₂ idx r := by
  intro gs₁
  induction gs₁ with
  | nil =>
    intro gs₂ hg idx r
    cases gs₂ with
    | nil => rfl
    | cons g gs => simp [groupsProj] at hg
  | cons g gs ih =>
    intro gs₂ hg idx r
    cases gs₂ with
    | nil => simp [groupsProj] at hg
    | cons g₂ gs₂ =>
      obtain ⟨t₁, l₁⟩ := g
      obtain ⟨t₂, l₂⟩ := g₂
      simp only [groupsProj, List.map_cons, List.cons.injEq, Prod.mk.injEq] at hg
      obtain ⟨⟨ht, hl⟩, htail⟩ := hg
      subst ht
      simp only [genPlaylistsAux]
      obtain ⟨hsh, hr⟩ := shuffle_proj hl r
      have hchunks : (chunks5 (shuffle l₁ r).1).map (fun c => c.map evPair)
          = (chunks5 (shuffle l₂ r).1).map (fun c => c.map evPair) := by
        rw [← chunks5_map, ← chunks5_map, hsh]
      rw [mkPlaylistsForChunks_proj t₁ hchunks idx (shuffle l₁ r).2, hr,
        ih htail]

theorem generate_playlists_proj {es₁ es₂ : List Event}
    (h : es₁.map evPair = es₂.map evPair) (r : RGen) :
    generate_playlists es₁ r = generate_playlists es₂ r := by
  simp only [generate_playlists]
  rw [genPlaylistsAux_proj (groupBySport_proj h) 1 r]

theorem runShape_indep (fuel : Nat) (r : RGen) (n₁ n₂ : Nat) :
    runShape (runGenerator n₁ r fuel) = runShape (runGenerator n₂ r fuel) := by
  simp only [runGenerator, Option.bind_eq_bind]
  cases hP : generate_providers 60 r fuel with
  | none => simp only [Option.none_bind, runShape, Option.map_none']
  | some pq =>
    obtain ⟨ps, r1⟩ := pq
    simp only [Option.some_bind]
    have hsh : Option.map (fun q => (q.1.map eventShape, q.2))
        (generate_events ps n₁ 90 r1)
        = Option.map (fun q => (q.1.map eventShape, q.2))
          (generate_events ps n₂ 90 r1) :=
      genEventsAux_shape ps n₁ n₂ 90 1 r1
    cases hE1 : generate_events ps n₁ 90 r1 with
    | none =>
      cases hE2 : generate_events ps n₂ 90 r1 with
      | none => rfl
      | some q2 =>
        rw [hE1, hE2] at hsh
        simp at hsh
    | some q1 =>
      cases hE2 : generate_events ps n₂ 90 r1 with
      | none =>
        rw [hE1, hE2] at hsh
        simp at hsh
      | some q2 =>
        rw [hE1, hE2] at hsh
        simp only [Option.map_some', Option.some_inj] at hsh
        obtain ⟨es₁, r21⟩ := q1
        obtain ⟨es₂, r22⟩ := q2
        have hshape : es₁.map eventShape = es₂.map eventShape :=
          congrArg Prod.fst hsh
        have hr2 : r21 = r22 := congrArg Prod.snd hsh
        have hpair : es₁.map evPair = es₂.map evPair := by
          have h1 : es₁.map evPair
              = (es₁.map eventShape).map (fun t => (t.2.1, t.1)) := by
            rw [List.map_map]; rfl
          have h2 : es₂.map evPair
              = (es₂.map eventShape).map (fun t => (t.2.1, t.1)) := by
            rw [List.map_map]; rfl
          rw [h1, h2, hshape]
        have hpl : generate_playlists es₁ r21 = generate_playlists es₂ r21 :=
          generate_playlists_proj hpair r21
        simp only [Option.some_bind, runShape, Option.pure_def,
          Option.map_some', Option.some_inj]
        rw [hshape, ← hr2, hpl]

/-! Concrete fixtures used by the witnesses. -/

/-- A minimal provider record with a given sequential id. -/
def dummyProvider (i : Nat) : Provider :=
  { id := providerId i, name := pad3 i, focus := [], countries := []
  , languages := [], cdn := "", endpoints := []
  , support := { statusPage := "", contact := "", onCall := "" } }

/-- Four providers, enough for every sample size the event loop draws. -/
def provs4 : List Provider :=
  [dummyProvider 1, dummyProvider 2, dummyProvider 3, dummyProvider 4]

/-- Two providers, the boundary the specification calls sufficient. -/
def provs2 : List Provider := [dummyProvider 1, dummyProvider 2]

/-- A single concrete event record. -/
def wEvent : Event :=
  { id := "event-001-nba", sport := "nba", title := "", startTs := ⟨0, 0⟩
  , endTs := ⟨0, 0⟩, venue := "", timezone := "", providers := [], notes := [] }

/-- The playlist the generator produces from the single event above at
state 0, written out for the witnesses. -/
def wPlaylist : Playlist :=
  { id := "playlist-001-nba", sport := "nba", title := "Nba Weekly Mix #02"
  , curator := "regional-scouts"
  , weeks := ["2025-W12", "2025-W26", "2025-W43", "2025-W49"]
  , events := ["event-001-nba"] }

/-! The claims. -/

/-- C1: in every successful run of the event generator on a provider
list with pairwise distinct ids, every entry of every generated event
providers list is the id of a provider of the input list, and each such
list holds between 2 and 4 pairwise distinct provider ids. -/
theorem events_reference_providers {providers : List Provider}
    {nowDay count : Nat} {r r' : RGen} {es : List Event}
    (hgen : generate_events providers nowDay count r = some (es, r'))
    (hids : (providers.map Provider.id).Nodup) :
    ∀ e ∈ es,
      (∀ pid ∈ e.providers, ∃ p ∈ providers, p.id = pid)
      ∧ 2 ≤ e.providers.length ∧ e.providers.length ≤ 4
      ∧ e.providers.Nodup := by
  intro e he
  obtain ⟨_, hall⟩ := genEventsAux_spec hgen
  obtain ⟨h1, h2, h3, h4⟩ := hall e he
  exact ⟨h1, h2, h3, h4 hids⟩

set_option maxRecDepth 200000 in
/-- Witness for C1: a concrete event generation run on four providers. -/
theorem events_reference_providers_witness :
    ((generate_events provs4 0 1 (RGen.mk 0)).map
      (fun q => ∀ e ∈ q.1,
        (∀ pid ∈ e.providers, ∃ p ∈ provs4, p.id = pid)
        ∧ 2 ≤ e.providers.length ∧ e.providers.length ≤ 4
        ∧ e.providers.Nodup)).getD False := by
  cases hgen : generate_events provs4 0 1 (RGen.mk 0) with
  | none => exact absurd hgen (by decide)
  | some q =>
    simp only [Option.map_some', Option.getD_some]
    exact events_reference_providers hgen (by decide)

/-- C2: every id in the events list of a generated playlist is the id
of an event of the input list whose sport equals the playlist sport. -/
theorem playlists_reference_same_sport_events {events : List Event}
    {r : RGen} :
    ∀ p ∈ (generate_playlists events r).1, ∀ eid ∈ p.events,
      ∃ e ∈ events, e.id = eid ∧ e.sport = p.sport := by
  intro p hp eid heid
  simp only [generate_playlists] at hp
  obtain ⟨_, _, _, es', hes', hev⟩ :=
    genPlaylistsAux_mem (groupBySport events) 1 r p hp
  obtain ⟨e, he, heq⟩ := hev eid heid
  have hes : es' = events.filter (fun x => x.sport == p.sport) :=
    ((findGroup_of_mem (groupKeys_nodup events) hes').symm).trans
      (findGroup_groupBySport _ _)
  rw [hes] at he
  exact ⟨e, (List.mem_filter.mp he).1, heq,
    by simpa using (List.mem_filter.mp he).2⟩

set_option maxRecDepth 200000 in
/-- Witness for C2: the concrete playlist generated from one event. -/
theorem playlists_reference_same_sport_events_witness :
    ∃ e ∈ [wEvent], e.id = "event-001-nba" ∧ e.sport = wPlaylist.sport :=
  @playlists_reference_same_sport_events [wEvent] (RGen.mk 0)
    wPlaylist (by decide) "event-001-nba" (by decide)

/-- C3: a successful provider generation run (count at most 999, the
range of the three-digit id format) yields exactly count records whose
ids are the sequential strings provider-NNN for NNN = 001 .. count,
pairwise distinct, and whose names are pairwise distinct. -/
theorem providers_count_and_unique {count fuel : Nat} {r r' : RGen}
    {ps : List Provider}
    (hgen : generate_providers count r fuel = some (ps, r'))
    (hcount : count ≤ 999) :
    ps.length = count
    ∧ ps.map Provider.id = (List.range' 1 count).map providerId
    ∧ (ps.map Provider.id).Nodup
    ∧ (ps.map Provider.name).Nodup := by
  obtain ⟨hids, _, hnames, _⟩ :=
    genProvidersAux_spec fuel count 1 [] r r' ps hgen
  have hlen : ps.length = count := by
    have := congrArg List.length hids
    simpa using this
  refine ⟨hlen, hids, ?_, hnames⟩
  rw [hids]
  apply List.Nodup.map_on ?_ (List.nodup_range' 1 count)
  intro m hm n hn hmn
  have hm' := List.mem_range'_1.mp hm
  have hn' := List.mem_range'_1.mp hn
  exact providerId_inj (by omega) (by omega) hmn

set_option maxRecDepth 200000 in
/-- Witness for C3: the seeded run with the default provider count. -/
theorem providers_count_and_unique_witness :
    ((generate_providers 60 seed42 200).map
      (fun q => q.1.length = 60
        ∧ q.1.map Provider.id = (List.range' 1 60).map providerId
        ∧ (q.1.map Provider.id).Nodup
        ∧ (q.1.map Provider.name).Nodup)).getD False := by
  cases hgen : generate_providers 60 seed42 200 with
  | none => exact absurd hgen (by decide)
  | some q =>
    simp only [Option.map_some', Option.getD_some]
    exact providers_count_and_unique hgen (by omega)

/-- C4: the end time computation splits start hour plus duration by the
24-hour clock, the quotient advancing the day offset and the remainder
giving the end hour; in particular start hour 23 with duration 4 ends
at hour 3 on the next day. -/
theorem event_time_calculation :
    (∀ startHour dayOffset duration : Nat,
      eventTimeCalc startHour dayOffset duration
        = (dayOffset + (startHour + duration) / 24,
           (startHour + duration) % 24))
    ∧ ∀ dayOffset : Nat, eventTimeCalc 23 dayOffset 4 = (dayOffset + 1, 3) := by
  constructor
  · intro startHour dayOffset duration
    rfl
  · intro dayOffset
    simp [eventTimeCalc]

/-- C5 counterexample: a provider list of length two on which the event
generator fails with the default event count, because the sample size
drawn from 2..4 exceeds the population; the claim that at least two
providers always suffice is false. -/
theorem two_providers_can_fail :
    provs2.length = 2 ∧ generate_events provs2 0 90 (RGen.mk 0) = none := by
  constructor
  · rfl
  · decide

/-- C5 amended: with at least four providers the event generator always
succeeds and produces exactly count events; with fewer than two
providers and at least one requested event it always fails with the
out-of-range sampling error (none); with two or three providers the
outcome depends on the drawn sample sizes. -/
theorem events_generation_success_bounds {providers : List Provider}
    {nowDay count : Nat} {r : RGen} :
    (4 ≤ providers.length →
      ((generate_events providers nowDay count r).map
        (fun q => q.1.length = count)).getD False)
    ∧ (providers.length < 2 → 1 ≤ count →
      generate_events providers nowDay count r = none) := by
  constructor
  · intro h4
    have hs := @genEventsAux_isSome providers nowDay h4 count 1 r
    cases hgen : generate_events providers nowDay count r with
    | none =>
      rw [show genEventsAux providers nowDay 1 count r
        = generate_events providers nowDay count r from rfl, hgen] at hs
      cases hs
    | some q =>
      simp only [Option.map_some', Option.getD_some]
      exact (genEventsAux_spec hgen).1
  · intro h2 hc
    exact genEventsAux_none h2 count 1 r hc

set_option maxRecDepth 200000 in
/-- Witness for the amended C5: four providers succeed with the exact
count, one provider fails. -/
theorem events_generation_success_bounds_witness :
    ((generate_events provs4 0 3 (RGen.mk 0)).map
      (fun q => q.1.length = 3)).getD False
    ∧ generate_events [dummyProvider 1] 0 3 (RGen.mk 0) = none :=
  ⟨events_generation_success_bounds.1 (by decide),
   events_generation_success_bounds.2 (by decide) (by decide)⟩

/-- C6: every generated playlist holds at most five event ids, and when
the input events have pairwise distinct ids, every input event appears
in exactly one generated playlist, necessarily of its own category. -/
theorem playlists_partition {events : List Event} {r : RGen} :
    (∀ p ∈ (generate_playlists events r).1, p.events.length ≤ 5)
    ∧ ((events.map Event.id).Nodup → ∀ e ∈ events,
        (generate_playlists events r).1.countP
          (fun p => decide (e.id ∈ p.events)) = 1
        ∧ ∀ p ∈ (generate_playlists events r).1,
            e.id ∈ p.events → p.sport = e.sport) := by
  constructor
  · intro p hp
    simp only [generate_playlists] at hp
    exact (genPlaylistsAux_mem (groupBySport events) 1 r p hp).2.2.1
  · intro hnodup e he
    exact ⟨playlists_countP_one hnodup he,
      playlists_sport_of_mem_id hnodup he⟩

set_option maxRecDepth 200000 in
/-- Witness for C6: the single-event run, one playlist containing the
event exactly once. -/
theorem playlists_partition_witness :
    wPlaylist.events.length ≤ 5
    ∧ (generate_playlists [wEvent] (RGen.mk 0)).1.countP
        (fun p => decide (wEvent.id ∈ p.events)) = 1 :=
  ⟨(@playlists_partition [wEvent] (RGen.mk 0)).1 wPlaylist (by decide),
   ((@playlists_partition [wEvent] (RGen.mk 0)).2
      (by decide) wEvent (by decide)).1⟩

/-- C7: every generated playlist id embeds the pre-increment counter
value while its title displays that counter plus one (the
post-increment value of playlist_idx). -/
theorem playlist_title_counter_offset {events : List Event} {r : RGen} :
    ∀ p ∈ (generate_playlists events r).1,
      ∃ n, p.id = "playlist-" ++ pad3 n ++ "-" ++ p.sport
        ∧ p.title = pyTitle (dashToSpace p.sport)
            ++ " Weekly Mix #" ++ pad2 (n + 1) := by
  intro p hp
  simp only [generate_playlists] at hp
  exact (genPlaylistsAux_mem (groupBySport events) 1 r p hp).2.1

set_option maxRecDepth 200000 in
/-- Witness for C7: the concrete playlist, id counter 1 and displayed
title counter 2. -/
theorem playlist_title_counter_offset_witness :
    ∃ n, wPlaylist.id = "playlist-" ++ pad3 n ++ "-" ++ wPlaylist.sport
      ∧ wPlaylist.title = pyTitle (dashToSpace wPlaylist.sport)
          ++ " Weekly Mix #" ++ pad2 (n + 1) :=
  @playlist_title_counter_offset [wEvent] (RGen.mk 0)
    wPlaylist (by decide)

set_option maxRecDepth 1000000 in
/-- C8 counterexample: two runs from the fixed seed on consecutive UTC
days produce different output, because the event timestamps embed the
run date; identical output across arbitrary runs is false. -/
theorem generator_output_differs_across_dates :
    runGenerator 0 seed42 200 ≠ runGenerator 1 seed42 200 := by
  decide

/-- C8 amended: from a fixed random state, a rerun on the same UTC day
reproduces the output exactly, and runs on different days still agree
on everything except the event timestamps: the providers, the events
with their timestamps erased, and the playlists — hence identical file
counts and identical cross-reference structure. -/
theorem generator_shape_date_independent :
    ∀ (fuel : Nat) (r : RGen) (nowDay n₁ n₂ : Nat),
      runGenerator nowDay r fuel = runGenerator nowDay r fuel
      ∧ runShape (runGenerator n₁ r fuel) = runShape (runGenerator n₂ r fuel) :=
  fun fuel r _ n₁ n₂ => ⟨rfl, runShape_indep fuel r n₁ n₂⟩

/-- C9: the serializer writes, for every provider, one document at
id.json in the providers directory whose content is the payload pretty
printed with two-space indentation plus a trailing newline, and the
payload stores the internal focus, countries, languages, cdn, endpoints
and support fields unchanged under the public keys sportsFocus,
coverageCountries, supportedLanguages, primaryCdn, activeEndpoints and
supportModel. -/
theorem write_providers_schema {providers : List Provider} :
    ∀ p ∈ providers,
      (PROVIDERS_DIR ++ "/" ++ p.id ++ ".json",
        renderJV 0 (JValue.obj (providerPayload p)) ++ "\n")
          ∈ write_providers providers
      ∧ (providerPayload p).lookup "sportsFocus"
          = some (JValue.arr (p.focus.map JValue.str))
      ∧ (providerPayload p).lookup "coverageCountries"
          = some (JValue.arr (p.countries.map JValue.str))
      ∧ (providerPayload p).lookup "supportedLanguages"
          = some (JValue.arr (p.languages.map JValue.str))
      ∧ (providerPayload p).lookup "primaryCdn" = some (JValue.str p.cdn)
      ∧ (providerPayload p).lookup "activeEndpoints"
          = some (JValue.arr (p.endpoints.map endpointJV))
      ∧ (providerPayload p).lookup "supportModel"
          = some (JValue.obj
              [("statusPage", JValue.str p.support.statusPage),
               ("contact", JValue.str p.support.contact),
               ("onCall", JValue.str p.support.onCall)]) := by
  intro p hp
  refine ⟨?_, rfl, rfl, rfl, rfl, rfl, rfl⟩
  exact List.mem_map.mpr ⟨p, hp, rfl⟩

/-- Witness for C9: the schema facts at a concrete provider record. -/
theorem write_providers_schema_witness :
    (PROVIDERS_DIR ++ "/" ++ (dummyProvider 1).id ++ ".json",
      renderJV 0 (JValue.obj (providerPayload (dummyProvider 1))) ++ "\n")
        ∈ write_providers [dummyProvider 1]
    ∧ (providerPayload (dummyProvider 1)).lookup "sportsFocus"
        = some (JValue.arr ((dummyProvider 1).focus.map JValue.str))
    ∧ (providerPayload (dummyProvider 1)).lookup "coverageCountries"
        = some (JValue.arr ((dummyProvider 1).countries.map JValue.str))
    ∧ (providerPayload (dummyProvider 1)).lookup "supportedLanguages"
        = some (JValue.arr ((dummyProvider 1).languages.map JValue.str))
    ∧ (providerPayload (dummyProvider 1)).lookup "primaryCdn"
        = some (JValue.str (dummyProvider 1).cdn)
    ∧ (providerPayload (dummyProvider 1)).lookup "activeEndpoints"
        = some (JValue.arr ((dummyProvider 1).endpoints.map endpointJV))
    ∧ (providerPayload (dummyProvider 1)).lookup "supportModel"
        = some (JValue.obj
            [("statusPage", JValue.str (dummyProvider 1).support.statusPage),
             ("contact", JValue.str (dummyProvider 1).support.contact),
             ("onCall", JValue.str (dummyProvider 1).support.onCall)]) :=
  write_providers_schema (dummyProvider 1) (List.mem_singleton_self _)

/-- C10: in every successful provider generation run, the ingest region
of every endpoint of every provider is one of that same provider's own
countries. -/
theorem endpoint_regions_within_provider_countries
    {count fuel : Nat} {r r' : RGen} {ps : List Provider}
    (hgen : generate_providers count r fuel = some (ps, r')) :
    ∀ p ∈ ps, ∀ ep ∈ p.endpoints, ep.ingestRegion ∈ p.countries :=
  (genProvidersAux_spec fuel count 1 [] r r' ps hgen).2.2.2

set_option maxRecDepth 200000 in
/-- Witness for C10: a concrete three-provider run. -/
theorem endpoint_regions_within_provider_countries_witness :
    ((generate_providers 3 seed42 200).map
      (fun q => ∀ p ∈ q.1, ∀ ep ∈ p.endpoints,
        ep.ingestRegion ∈ p.countries)).getD False := by
  cases hgen : generate_providers 3 seed42 200 with
  | none => exact absurd hgen (by decide)
  | some q =>
    simp only [Option.map_some', Option.getD_some]
    exact endpoint_regions_within_provider_countries hgen
